import Mathlib

/-!
Verification development for the database administration tool
(`tools/xitool.py`, `tools/utils/database.py`, `tools/utils/common.py`).

Python strings are modelled as `List Char` (`Str`); Python `bytes` as
`List Nat` with every element below 256; Python `None`/`bytes`/`str`/`int`
cell values as the inductive `Value`.  All operations are translated from
the source; functions documented as `Modelled from the spec:` model
behaviour delegated to external binaries (the MySQL literal parser).
All definitions are structural recursions so that concrete inputs
evaluate inside the kernel.
-/

abbrev Str := List Char

/-- Python whitespace characters used by `str.strip()` / `str.split()`. -/
def isWs (c : Char) : Bool :=
  c = ' ' || c = '\t' || c = '\n' || c = '\r' || c = '\x0b' || c = '\x0c'

def dropLeadingWs : Str → Str
  | [] => []
  | c :: cs => if isWs c then dropLeadingWs cs else c :: cs

def dropTrailingWs (s : Str) : Str := (dropLeadingWs s.reverse).reverse

/-- Python `str.strip()`. -/
def pyStrip (s : Str) : Str := dropLeadingWs (dropTrailingWs s)

/-- ASCII lowering, as `str.lower()` acts on the ASCII range. -/
def lowerChar (c : Char) : Char :=
  if 'A' ≤ c ∧ c ≤ 'Z' then Char.ofNat (c.toNat + 32) else c

def lowerStr (s : Str) : Str := s.map lowerChar

/-- `sStartsWith p s` is Python `s.startswith(p)`. -/
def sStartsWith : Str → Str → Bool
  | [], _ => true
  | _ :: _, [] => false
  | p :: ps, c :: cs => p = c && sStartsWith ps cs

/-- Whether `pat` occurs as a contiguous substring of `s` (Python `pat in s`). -/
def containsSub (pat : Str) : Str → Bool
  | [] => sStartsWith pat []
  | c :: rest => sStartsWith pat (c :: rest) || containsSub pat rest

/-- Index of the first occurrence of `pat` in `s`; `none` models the
`ValueError` raised by Python `s.index(pat)` when absent. -/
def indexOfSub (pat : Str) : Str → Option Nat
  | [] => if sStartsWith pat [] then some 0 else none
  | c :: rest =>
      if sStartsWith pat (c :: rest) then some 0
      else (indexOfSub pat rest).map (· + 1)

/-- Python `s.split("--")[0]`: the text before the first `--`. -/
def beforeDashDash : Str → Str
  | [] => []
  | c :: r => if c = '-' ∧ r.head? = some '-' then [] else c :: beforeDashDash r

/-- Text before the first occurrence of character `c` (for `split(c, 1)[0]`). -/
def beforeChar (c : Char) : Str → Str
  | [] => []
  | d :: rest => if d = c then [] else d :: beforeChar c rest

/-- Text after the first occurrence of character `c` (for `split(c, 1)[1]`). -/
def afterChar (c : Char) : Str → Str
  | [] => []
  | d :: rest => if d = c then rest else afterChar c rest

/-- Python `s.split(c)` splitting on every occurrence, keeping empty parts. -/
def splitCharAux (c : Char) : Str → Str → List Str
  | cur, [] => [cur.reverse]
  | cur, d :: rest =>
      if d = c then cur.reverse :: splitCharAux c [] rest
      else splitCharAux c (d :: cur) rest

def splitAllOnChar (c : Char) (s : Str) : List Str := splitCharAux c [] s

/-- Python `s.split()` with no arguments: split on whitespace runs. -/
def wsSplitAux : Str → Str → List Str
  | cur, [] => if cur = [] then [] else [cur.reverse]
  | cur, d :: rest =>
      if isWs d then
        if cur = [] then wsSplitAux [] rest else cur.reverse :: wsSplitAux [] rest
      else wsSplitAux (d :: cur) rest

def wsSplit (s : Str) : List Str := wsSplitAux [] s

/-- Join a list of strings with a separator (Python `sep.join(l)`). -/
def joinSep (sep : Str) : List Str → Str
  | [] => []
  | [x] => x
  | x :: xs => x ++ sep ++ joinSep sep xs

def digitChar (d : Nat) : Char :=
  match d with
  | 0 => '0' | 1 => '1' | 2 => '2' | 3 => '3' | 4 => '4'
  | 5 => '5' | 6 => '6' | 7 => '7' | 8 => '8' | 9 => '9'
  | _ => '0'

def digitVal (c : Char) : Nat :=
  match c with
  | '0' => 0 | '1' => 1 | '2' => 2 | '3' => 3 | '4' => 4
  | '5' => 5 | '6' => 6 | '7' => 7 | '8' => 8 | '9' => 9
  | _ => 0

def isDigitChar (c : Char) : Bool := '0' ≤ c && c ≤ '9'

/-- Decimal digits of `n`, most significant first; fuel-based so the kernel
can evaluate it (fuel `n + 1` always suffices). -/
def natToDigitsAux : Nat → Nat → Str
  | 0, _ => []
  | fuel + 1, n =>
      if n < 10 then [digitChar n]
      else natToDigitsAux fuel (n / 10) ++ [digitChar (n % 10)]

def natToDigits (n : Nat) : Str := natToDigitsAux (n + 1) n

/-- Python `str(value)` for an integer value. -/
def intToStr (n : Int) : Str :=
  if n < 0 then '-' :: natToDigits n.natAbs else natToDigits n.toNat

def digitsVal (s : Str) : Nat := s.foldl (fun acc c => acc * 10 + digitVal c) 0

def digitsToNat? (s : Str) : Option Nat :=
  if s ≠ [] ∧ s.all isDigitChar then some (digitsVal s) else none

/-- Decimal integer literal parser (optional leading minus). -/
def parseIntLit (s : Str) : Option Int :=
  match s with
  | [] => none
  | c :: rest =>
      if c = '-' then (digitsToNat? rest).map (fun m => -(Int.ofNat m))
      else (digitsToNat? (c :: rest)).map (fun m => Int.ofNat m)

/-- Python `int(s)` on a stripped decimal string; `none` models `ValueError`. -/
def pyInt (s : Str) : Option Int := parseIntLit (pyStrip s)

def hexDigit (d : Nat) : Char :=
  match d with
  | 0 => '0' | 1 => '1' | 2 => '2' | 3 => '3' | 4 => '4' | 5 => '5'
  | 6 => '6' | 7 => '7' | 8 => '8' | 9 => '9' | 10 => 'A' | 11 => 'B'
  | 12 => 'C' | 13 => 'D' | 14 => 'E' | 15 => 'F'
  | _ => '0'

/-- Python `bytes.hex().upper()`: two uppercase hex digits per byte. -/
def hexUpper : List Nat → Str
  | [] => []
  | b :: bs => hexDigit (b / 16 % 16) :: hexDigit (b % 16) :: hexUpper bs

def hexVal (c : Char) : Option Nat :=
  let n := c.toNat
  if 48 ≤ n ∧ n ≤ 57 then some (n - 48)
  else if 65 ≤ n ∧ n ≤ 70 then some (n - 55)
  else if 97 ≤ n ∧ n ≤ 102 then some (n - 87)
  else none

/-- Decode a hex string (pairs of digits) back to bytes. -/
def hexPairs : Str → Option (List Nat)
  | [] => some []
  | [_] => none
  | h :: l :: rest =>
      match hexVal h, hexVal l with
      | some a, some b => (hexPairs rest).map ((a * 16 + b) :: ·)
      | _, _ => none

/-- Latin-1 decoding of a byte sequence (`bytes.decode('latin_1')`). -/
def latin1Decode (bs : List Nat) : Str := bs.map Char.ofNat

/-- Latin-1 encoding of a character sequence. -/
def latin1Encode (s : Str) : List Nat := s.map Char.toNat

/-- Python `value.replace("'", "\\'")` from the string branch of
`Database.export_table`. -/
def escapeQuotes : Str → Str
  | [] => []
  | c :: cs =>
      if c = '\'' then '\\' :: '\'' :: escapeQuotes cs else c :: escapeQuotes cs

/-- A database cell value as returned by the MariaDB cursor: `None`, `bytes`,
`str` or `int`.  (Float columns are formatted from the cursor description's
declared scale and are lossy; they are outside this model.) -/
inductive Value
  | vnull
  | vbytes (bs : List Nat)
  | vstr (s : Str)
  | vint (n : Int)
deriving DecidableEq

/-- First-match association lookup, as on the keys of a Python dict. -/
def assocLookup (l : List (Str × Str)) (k : Str) : Option Str :=
  match l with
  | [] => none
  | p :: ps => if p.1 = k then some p.2 else assocLookup ps k

/-- Python dict assignment `d[k] = v` on an insertion-ordered association
list: an existing key keeps its position, a new key is appended. -/
def dictInsert (k v : Str) : List (Str × Str) → List (Str × Str)
  | [] => [(k, v)]
  | p :: ps => if p.1 = k then (k, v) :: ps else p :: dictInsert k v ps

/-- The `pet_skills` bitmask expansion of `Database.export_table`: walk the
collected `SET @var` declarations in order, keep the name of each whose
value has a common bit with `n`; `none` models the `ValueError` of
`int(var)` on a non-numeric declaration value. -/
def petSkillExpand (n : Int) : List (Str × Str) → Option (List Str)
  | [] => some []
  | p :: ps =>
      match pyInt p.1 with
      | none => none
      | some k =>
          (petSkillExpand n ps).map fun rest =>
            if Int.land n k ≠ 0 then p.2 :: rest else rest

/-- Value formatting of `Database.export_table` (database.py lines 305-363):
given the table name, the `SET @var` declarations collected so far
(`sql_variables`, an insertion-ordered map from declaration value string to
variable name) and the column index `i`, format one cell value as a SQL
literal.  `none` models an exception escaping the formatting code. -/
def formatValue (table : Str) (vars : List (Str × Str)) (i : Nat) (v : Value) :
    Option Str :=
  match v with
  | .vnull => some ("NULL".data)
  | .vbytes bs =>
      if bs.isEmpty then some ['\'', '\'']
      else if table = "npc_list".data ∧ i = 1 then
        if bs.all (fun j => 32 ≤ j && j ≤ 126) then
          some ('\'' :: latin1Decode bs ++ ['\''])
        else some ('0' :: 'x' :: hexUpper bs)
      else some ('0' :: 'x' :: hexUpper bs)
  | .vstr s => some ('\'' :: escapeQuotes s ++ ['\''])
  | .vint n =>
      if table = "mob_droplist".data ∧ i = 5 ∧
          (assocLookup vars (intToStr n)).isSome then
        some ((assocLookup vars (intToStr n)).getD [])
      else if table = "pet_skills".data ∧ i = 9 then
        (petSkillExpand n vars).map (joinSep (" | ".data))
      else some (intToStr n)

/-- The literal prefix matched by the regex of `Database.export_table`
(line 298): `insert into `table` values (` against the lowercased,
stripped line. -/
def insertPat (table : Str) : Str :=
  "insert into `".data ++ table ++ "` values (".data

/-- Whether a fixture-file line is treated as an INSERT line by
`Database.export_table`: the regex matches at the start of
`line.strip().lower()`. -/
def isInsertMatch (table line : Str) : Bool :=
  sStartsWith (insertPat table) (lowerStr (pyStrip line))

/-- The `SET @var` scan of `Database.export_table` (lines 291-295): if the
stripped line starts with `SET @`, record
`sql_variables[var_value] = var_name`.  `none` models the `IndexError`
raised when the line has no `=` (`parts[1]`). -/
def scanSet (vars : List (Str × Str)) (line : Str) :
    Option (List (Str × Str)) :=
  let stripped := pyStrip line
  if sStartsWith ("SET @".data) stripped then
    let parts := splitAllOnChar '=' stripped
    match (wsSplit (parts.headD [])).get? 1 with
    | none => none
    | some varName =>
      match parts.get? 1 with
      | none => none
      | some p1 =>
        let varValue := pyStrip (beforeDashDash (p1.filter (fun c => !(c = ';'))))
        some (dictInsert varValue varName vars)
  else some vars

/-- Format one fetched row: `formatValue` on each cell with its column
index, as the `for i, value in enumerate(values)` loop. -/
def formatRowAux (table : Str) (vars : List (Str × Str)) :
    Nat → List Value → Option (List Str)
  | _, [] => some []
  | i, v :: vs =>
      match formatValue table vars i v with
      | none => none
      | some s => (formatRowAux table vars (i + 1) vs).map (s :: ·)

def formatRow (table : Str) (vars : List (Str × Str)) (row : List Value) :
    Option (List Str) :=
  formatRowAux table vars 0 row

/-- One iteration of the line loop of `Database.export_table`
(lines 289-378).  Returns the emitted line, the updated `sql_variables`
and the updated `row_index`; `none` models any exception escaping the
iteration (caught by the surrounding `except`). -/
def processLine (table : Str) (rows : List (List Value))
    (vars : List (Str × Str)) (rowIndex : Nat) (line : Str) :
    Option (Str × List (Str × Str) × Nat) :=
  match scanSet vars line with
  | none => none
  | some vars2 =>
    if isInsertMatch table line then
      match rows.get? rowIndex with
      | none => none
      | some row =>
        match formatRow table vars2 row with
        | none => none
        | some vals =>
          let base := line.take (insertPat table).length ++ joinSep [','] vals
            ++ (");".data)
          if containsSub ("--".data) line then
            match indexOfSub (");".data) line with
            | none => none
            | some p =>
              let insertEnd := p + 2
              let beforeComment := beforeDashDash (line.drop insertEnd)
              some (base ++ beforeComment
                ++ line.drop (insertEnd + beforeComment.length), vars2,
                rowIndex + 1)
          else some (base ++ ['\n'], vars2, rowIndex + 1)
    else some (line, vars2, rowIndex)

/-- The whole line loop, threading `sql_variables`, `row_index` and the
accumulated `updated_lines`. -/
def processLinesAux (table : Str) (rows : List (List Value)) :
    List (Str × Str) → Nat → List Str → List Str → Option (List Str)
  | _, _, acc, [] => some acc.reverse
  | vars, idx, acc, l :: ls =>
      match processLine table rows vars idx l with
      | none => none
      | some (out, vars2, idx2) =>
          processLinesAux table rows vars2 idx2 (out :: acc) ls

def processLines (table : Str) (rows : List (List Value))
    (lines : List Str) : Option (List Str) :=
  processLinesAux table rows [] 0 [] lines

/-- `Database.export_table` as a transformation of the fixture file's
content: the file is rewritten only after every line has been processed,
and the surrounding `try/except Exception` turns any exception into a
printed message, leaving the file as it was. -/
def export_table (table : Str) (rows : List (List Value))
    (content : List Str) : List Str :=
  match processLines table rows content with
  | some updated => updated
  | none => content

/-- Number of lines of the file the INSERT regex matches. -/
def countMatches (table : Str) (content : List Str) : Nat :=
  (content.filter (fun l => isInsertMatch table l)).length

/-- Column type of the target column, used to give semantics to the literal
a re-import feeds back to the database. -/
inductive ColKind | binary | text | number
deriving DecidableEq

def kindOf : Value → ColKind
  | .vbytes _ => .binary
  | .vstr _ => .text
  | .vnull => .number
  | .vint _ => .number

/-- Map a character following a backslash to the character it denotes
(MySQL backslash escapes; characters without special meaning stand for
themselves). -/
def unescapeChar (c : Char) : Char :=
  if c = 'n' then '\n'
  else if c = 't' then '\t'
  else if c = 'r' then '\r'
  else if c = '0' then Char.ofNat 0
  else c

/-- Scan the interior of a quoted literal.  The literal must end exactly at
its closing quote; a backslash escapes the next character. -/
def parseQuotedAux : Str → Str → Option Str
  | _, [] => none
  | acc, c :: rest =>
      if c = '\\' then
        match rest with
        | [] => none
        | d :: rest2 => parseQuotedAux (acc ++ [unescapeChar d]) rest2
      else if c = '\'' then (if rest = [] then some acc else none)
      else parseQuotedAux (acc ++ [c]) rest

def parseQuoted (s : Str) : Option Str :=
  match s with
  | '\'' :: rest => parseQuotedAux [] rest
  | _ => none

/-- Modelled from the spec: `Database.import_file` commits the rewritten
fixture through the external `mysql` binary (`SOURCE file`), whose SQL
literal parser is not part of this repository.  This models how that
parser reads one emitted literal back into a cell value of a column of
the given kind: `NULL`, a quoted string (backslash escapes; for a binary
column the characters are the Latin-1 bytes), a `0x` hex literal, or a
decimal integer. -/
def parseValue (kind : ColKind) (s : Str) : Option Value :=
  match kind with
  | .number =>
      if s = "NULL".data then some .vnull else (parseIntLit s).map .vint
  | .text =>
      if s = "NULL".data then some .vnull else (parseQuoted s).map .vstr
  | .binary =>
      if s = "NULL".data then some .vnull
      else if sStartsWith ("0x".data) s then (hexPairs (s.drop 2)).map .vbytes
      else (parseQuoted s).map (fun t => .vbytes (latin1Encode t))

/-- The `protected_tables` list of the `Database` class. -/
def protected_tables : List String :=
  ["accounts", "accounts_banned", "auction_house_items", "auction_house",
   "char_blacklist", "char_chocobos", "char_effects", "char_equip",
   "char_equip_saved", "char_exp", "char_history", "char_inventory",
   "char_jobs", "char_job_points", "char_look", "char_merit", "char_pet",
   "char_points", "char_profile", "char_skills", "char_spells", "char_stats",
   "char_storage", "char_style", "char_unlocks", "char_vars", "chars",
   "conquest_system", "delivery_box", "ip_exceptions", "linkshells",
   "server_variables", "unity_system"]

/-- Lexicographic comparison by code point, as Python compares strings. -/
def charListLe : List Char → List Char → Bool
  | [], _ => true
  | _ :: _, [] => false
  | a :: as, b :: bs => if a < b then true else if b < a then false else charListLe as bs

def strLe (a b : String) : Bool := charListLe a.data b.data

def insertSortedStr (x : String) : List String → List String
  | [] => [x]
  | y :: ys => if strLe x y then x :: y :: ys else y :: insertSortedStr x ys

/-- Python `sorted` on a list of strings (insertion sort; equal strings are
indistinguishable, so stability is immaterial). -/
def pySorted (l : List String) : List String := l.foldr insertSortedStr []

def sEndsWith (suffix s : Str) : Bool :=
  sStartsWith suffix.reverse s.reverse

/-- Python `filename.endswith(".sql")`. -/
def endsWithSql (f : String) : Bool := sEndsWith (".sql".data) f.data

/-- Python `filename[:-4]`. -/
def dropLast4Str (f : String) : String :=
  String.mk (f.data.take (f.data.length - 4))

/-- Truthiness of `Common.configs["db_ver"]`: `None` and the empty string
are falsy. -/
def pyTruthyStrOpt : Option String → Bool
  | none => false
  | some s => s ≠ ""

/-- `Database.fetch_files` (database.py lines 391-455) as a function of its
environment: the persisted revision `db_ver`, the current source revision
`version`, the git diffs between them restricted to the `sql` directory
(as pairs of `b_path` and whether that path exists on disk), the file
names found by walking the `sql` directory, and the module `.sql` files
enumerated from `modules/init.txt`.  Paths are joined POSIX-style.
The `try/except` around the diff call is not modelled: the diffs are
given.  Note the order of operations: `triggers.sql` is moved to the end
of the sorted list, and the module files are appended after that. -/
def fetch_files (root : String) (db_ver : Option String) (version : String)
    (sql_diffs : List (String × Bool)) (dir_filenames : List String)
    (module_files : List String) : List String :=
  let base :=
    if pyTruthyStrOpt db_ver && !(version = "") then
      (sql_diffs.filter (·.2)).map (fun d => root ++ "/" ++ d.1)
    else
      ((pySorted dir_filenames).filter
        (fun f => endsWithSql f && !(protected_tables.contains (dropLast4Str f)))).map
        (fun f => root ++ "/sql/" ++ f)
  let sorted := pySorted base
  let trig := root ++ "/sql/triggers.sql"
  let moved := if sorted.contains trig then sorted.erase trig ++ [trig] else sorted
  moved ++ module_files

/-- A Python value as it appears in the row lists returned by
`cursor.fetchall()` for the `information_schema` query: either a plain
string or a tuple of strings.  Equality between a string and a tuple is
`False` in Python, which the derived equality mirrors. -/
inductive PyVal
  | str (s : String)
  | tupS (cells : List String)
deriving DecidableEq

/-- `Database.check_missing` (database.py lines 471-496): the
`information_schema` query returns the tables of `table_list` that ARE
present in the database (`db_tables` lists the schema's tables in the
order the server enumerates them), each as a 1-tuple row, and the loop
appends every fetched row unchanged. -/
def check_missing (db_tables : List String) (table_list : List String) :
    List PyVal :=
  (db_tables.filter (fun t => table_list.contains t)).map
    (fun t => PyVal.tupS [t])

/-- The import-file list built by `Database.update` (database.py lines
231-238): protected-table fixtures for which `value not in
Database.check_missing(...)` holds (a `str`-vs-tuple comparison), followed
by `Database.fetch_files()`. -/
def update_import_files (db_tables : List String) (root : String)
    (db_ver : Option String) (version : String)
    (sql_diffs : List (String × Bool)) (dir_filenames module_files : List String) :
    List String :=
  (protected_tables.filter
      (fun v => !((check_missing db_tables protected_tables).contains (PyVal.str v)))).map
      (fun v => root ++ "/sql/" ++ v ++ ".sql")
  ++ fetch_files root db_ver version sql_diffs dir_filenames module_files

/-- The import-file list built by `Database.create` (database.py lines
132-136): every protected-table fixture, followed by
`Database.fetch_files()`. -/
def create_import_files (root : String) (db_ver : Option String)
    (version : String) (sql_diffs : List (String × Bool))
    (dir_filenames module_files : List String) : List String :=
  protected_tables.map (fun v => root ++ "/sql/" ++ v ++ ".sql")
  ++ fetch_files root db_ver version sql_diffs dir_filenames module_files

/-- The backup file name built by `Database.backup` (database.py lines
186-191): `<database>-<timestamp>-<tag>.sql` with the tag chosen by
`'lite' if tables else db_ver if db_ver else 'full'`. -/
def backup_outfile_name (database timestamp : String) (tables : List String)
    (db_ver : Option String) : String :=
  database ++ "-" ++ timestamp ++ "-" ++
    (if !tables.isEmpty then "lite"
     else if pyTruthyStrOpt db_ver then db_ver.getD "" else "full") ++ ".sql"

/-- One CLI subcommand with the inputs its dispatch branch reads: the
validated flags and the outcomes of the external operations it runs. -/
inductive Command
  | setup (database_name : String) (yes : Bool)
  | update
  | importCmd (file_exists : Bool) (yes : Bool) (had_errors : Bool)
  | export (table_name : Option String) (all : Bool)

structure CliArgs where
  backup : Bool
  lite : Bool
  command : Option Command

structure CliEnv where
  dump_returncode : Int
  sql_database : String
  create_ok : Bool

/-- The exit status computed by `main` of `tools/xitool.py` (lines 86-192):
`status` starts at 0, a requested backup overwrites it with the
`mysqldump` return code, and the command dispatch runs only while
`status == 0`.  `Database.create()` returns a bool; setup maps `False`
to -1.  `Database.export_table` swallows its exceptions, so the export
branch only fails validation. -/
def mainStatus (args : CliArgs) (env : CliEnv) : Int :=
  let status : Int := if args.backup || args.lite then env.dump_returncode else 0
  if status = 0 then
    match args.command with
    | none => status
    | some (.setup name yes) =>
        if !yes then -1
        else if !(name = env.sql_database) then -1
        else if env.create_ok then 0 else -1
    | some .update => 0
    | some (.importCmd file_exists yes had_errors) =>
        if !yes then -1
        else if !file_exists then -1
        else if had_errors then -1
        else 0
    | some (.export table_name all) =>
        if (table_name.getD "") = "" && !all then -1 else 0
  else status

/-- One settings file: the key derived from its name (`filename[:-4]`) and
its lines as returned by `readlines()`. -/
structure SFile where
  key : Str
  lines : List Str

/-- The inner per-file settings dict.  Python `dict` equality ignores
insertion order and the settings are consumed only through lookups, so
dicts are modelled extensionally as lookup functions. -/
def SettingsInner : Type := Str → Option Str

def emptyInner : SettingsInner := fun _ => none

/-- The global `Common.settings` mapping. -/
def SettingsMap : Type := Str → Option SettingsInner

/-- Parse one line of a settings file, as `Common.populate_settings`
(common.py lines 97-122): lines without `=` produce nothing; newlines are
removed; the line is split once on `=`; keys and values are stripped;
`--`-prefixed keys are skipped; the value loses its trailing comment, a
leading quote, a trailing comma and a trailing quote, in that order. -/
def parseLine (line : Str) : Option (Str × Str) :=
  if line.contains '=' then
    let l := line.filter (fun c => !(c = '\n'))
    let key := pyStrip (beforeChar '=' l)
    let val := pyStrip (afterChar '=' l)
    if sStartsWith ("--".data) key then none
    else
      let v1 := pyStrip (beforeDashDash val)
      let v2 := if sStartsWith ['"'] v1 then v1.tail else v1
      let v3 := if v2.getLast? = some ',' then v2.dropLast else v2
      let v4 := if v3.getLast? = some '"' then v3.dropLast else v3
      some (key, v4)
  else none

/-- Apply one line to the per-file dict (`current_settings[key] = val`). -/
def applyLine (cur : SettingsInner) (line : Str) : SettingsInner :=
  match parseLine line with
  | none => cur
  | some (k, v) => fun q => if q = k then some v else cur q

/-- Process one settings file: `current_settings` starts from the existing
entry (`settings.get(filename_key, {})`), each line updates it, and
`settings[filename_key] = current_settings` runs inside the line loop, so
the entry is (re)bound exactly when the file has at least one line. -/
def applyFile (s : SettingsMap) (f : SFile) : SettingsMap :=
  match f.lines with
  | [] => s
  | _ :: _ =>
      fun fk =>
        if fk = f.key then
          some (f.lines.foldl applyLine ((s f.key).getD emptyInner))
        else s fk

/-- `Common.populate_settings`: process the files of each directory in
order (defaults directory first, overrides directory second). -/
def populate_settings (s : SettingsMap) (dirs : List (List SFile)) :
    SettingsMap :=
  dirs.foldl (fun acc files => files.foldl applyFile acc) s

/-- The parsed writes of one file, in line order. -/
def fileWrites (f : SFile) : List (Str × Str) := f.lines.filterMap parseLine

/-- The writes a directory's files make to the entry of `fk`, in order. -/
def dirWrites (files : List SFile) (fk : Str) : List (Str × Str) :=
  (files.filter (fun f => f.key = fk)).map fileWrites |>.flatten

/-- Whether some file of the list (re)binds the settings entry of `fk`:
`applyFile` assigns `settings[filename_key]` iff the file has at least
one line. -/
def touchedF (files : List SFile) (fk : Str) : Bool :=
  files.any (fun f => f.key = fk && !f.lines.isEmpty)

/-- The value of the last write to key `k` in a write list. -/
def lastVal (ws : List (Str × Str)) (k : Str) : Option Str :=
  ws.foldl (fun acc w => if w.1 = k then some w.2 else acc) none

/-- Look up one setting (`Common.settings[fk][k]`, as an option). -/
def lookup2 (s : SettingsMap) (fk k : Str) : Option Str :=
  (s fk).bind (fun m => m k)

def oElse (a b : Option Str) : Option Str :=
  match a with
  | some v => some v
  | none => b

theorem oElse_assoc (a b c : Option Str) :
    oElse (oElse a b) c = oElse a (oElse b c) := by
  cases a <;> rfl

theorem oElse_self_absorb (a b : Option Str) :
    oElse a (oElse a b) = oElse a b := by
  cases a <;> rfl

theorem fetch_files_concat_trig (root : String) (db_ver : Option String)
    (version : String) (sql_diffs : List (String × Bool))
    (dir_filenames : List String)
    (h : (root ++ "/sql/triggers.sql") ∈
      fetch_files root db_ver version sql_diffs dir_filenames []) :
    ∃ pre, fetch_files root db_ver version sql_diffs dir_filenames []
      = pre ++ [root ++ "/sql/triggers.sql"] := by
  unfold fetch_files at *
  simp only [List.append_nil] at *
  set base :=
    if pyTruthyStrOpt db_ver && !(version = "") then
      (sql_diffs.filter (·.2)).map (fun d => root ++ "/" ++ d.1)
    else
      ((pySorted dir_filenames).filter
        (fun f => endsWithSql f && !(protected_tables.contains (dropLast4Str f)))).map
        (fun f => root ++ "/sql/" ++ f) with hbase
  by_cases hc : (pySorted base).contains (root ++ "/sql/triggers.sql")
  · simp only [hc, if_true]
    exact ⟨(pySorted base).erase (root ++ "/sql/triggers.sql"), rfl⟩
  · simp only [hc, if_false] at h ⊢
    exact absurd (List.elem_iff.mpr h) hc

/-- C3: evaluation of `Database.check_missing` at a table list whose single
table IS present in the database.  The claim (and the function's own
docstring) say the result should be the missing tables, i.e. the empty
list; the code instead returns the present table, wrapped in a 1-tuple
row. -/
theorem check_missing_returns_present_tables :
    check_missing ["accounts"] ["accounts"] = [PyVal.tupS ["accounts"]]
    ∧ ([PyVal.tupS ["accounts"]] : List PyVal) ≠ [] := by
  exact ⟨by decide, by decide⟩

/-- C9: the backup file name is `<database>-<timestamp>-<tag>.sql`, where
the tag is `lite` when a table list is supplied, otherwise the stored
`db_ver` revision when it is set (non-`None`, non-empty), otherwise
`full`. -/
theorem backup_name_tag_cases (db ts : String) (tables : List String)
    (dbv : Option String) :
    (tables ≠ [] →
      backup_outfile_name db ts tables dbv
        = db ++ "-" ++ ts ++ "-" ++ "lite" ++ ".sql")
    ∧ (∀ v : String, tables = [] → dbv = some v → v ≠ "" →
      backup_outfile_name db ts tables dbv
        = db ++ "-" ++ ts ++ "-" ++ v ++ ".sql")
    ∧ (tables = [] → (dbv = none ∨ dbv = some "") →
      backup_outfile_name db ts tables dbv
        = db ++ "-" ++ ts ++ "-" ++ "full" ++ ".sql") := by
  refine ⟨?_, ?_, ?_⟩
  · intro h
    cases tables with
    | nil => exact absurd rfl h
    | cons a l => simp [backup_outfile_name]
  · intro v htab hdbv hv
    subst htab; subst hdbv
    simp [backup_outfile_name, pyTruthyStrOpt, hv]
  · intro htab hdbv
    subst htab
    rcases hdbv with h | h <;> subst h <;>
      simp [backup_outfile_name, pyTruthyStrOpt]

/-- C9 witness: a stored revision tag `abcd1234` with no table list. -/
theorem backup_name_tag_witness :
    backup_outfile_name "xidb" "20991231-235959" [] (some "abcd1234")
      = "xidb" ++ "-" ++ "20991231-235959" ++ "-" ++ "abcd1234" ++ ".sql" :=
  (backup_name_tag_cases "xidb" "20991231-235959" [] (some "abcd1234")).2.1
    "abcd1234" rfl rfl (by decide)

/-- C8 counterexample: with a backup requested and `mysqldump` failing with
return code 2 the CLI exits with 2, not with -1 as the claim states for a
backup error (and not 0). -/
theorem main_backup_error_exits_returncode :
    mainStatus ⟨true, false, none⟩ ⟨2, "xidb", true⟩ = 2
    ∧ ((2 : Int) ≠ -1 ∧ (2 : Int) ≠ 0) := by
  exact ⟨by decide, by decide, by decide⟩

/-- C8 (amended): the CLI exits 0 on success; -1 on a validation failure
(missing `--yes`, database-name mismatch, missing import file, export
without a table or `--all`), on an import error, or when setup's
`Database.create()` fails; it exits with the `mysqldump` return code when
a backup was requested and failed; export errors are swallowed by
`export_table`, so a validated export exits 0.  Each dispatch conjunct
assumes either that no backup was requested or that the backup's dump
succeeded. -/
theorem main_exit_codes (args : CliArgs) (env : CliEnv) :
    ((args.backup ∨ args.lite) → env.dump_returncode ≠ 0 →
      mainStatus args env = env.dump_returncode)
    ∧ (∀ name : String,
        ((args.backup = false ∧ args.lite = false) ∨ env.dump_returncode = 0) →
        args.command = some (.setup name false) → mainStatus args env = -1)
    ∧ (∀ name : String,
        ((args.backup = false ∧ args.lite = false) ∨ env.dump_returncode = 0) →
        args.command = some (.setup name true) → name ≠ env.sql_database →
        mainStatus args env = -1)
    ∧ (∀ name : String,
        ((args.backup = false ∧ args.lite = false) ∨ env.dump_returncode = 0) →
        args.command = some (.setup name true) → name = env.sql_database →
        mainStatus args env = (if env.create_ok then 0 else -1))
    ∧ (((args.backup = false ∧ args.lite = false) ∨ env.dump_returncode = 0) →
        args.command = some .update → mainStatus args env = 0)
    ∧ (∀ file_exists had_errors : Bool,
        ((args.backup = false ∧ args.lite = false) ∨ env.dump_returncode = 0) →
        args.command = some (.importCmd file_exists false had_errors) →
        mainStatus args env = -1)
    ∧ (∀ had_errors : Bool,
        ((args.backup = false ∧ args.lite = false) ∨ env.dump_returncode = 0) →
        args.command = some (.importCmd false true had_errors) →
        mainStatus args env = -1)
    ∧ (∀ had_errors : Bool,
        ((args.backup = false ∧ args.lite = false) ∨ env.dump_returncode = 0) →
        args.command = some (.importCmd true true had_errors) →
        mainStatus args env = (if had_errors then -1 else 0))
    ∧ (∀ (table_name : Option String) (all : Bool),
        ((args.backup = false ∧ args.lite = false) ∨ env.dump_returncode = 0) →
        args.command = some (.export table_name all) →
        mainStatus args env
          = (if (table_name.getD "") = "" ∧ all = false then -1 else 0))
    ∧ (((args.backup = false ∧ args.lite = false) ∨ env.dump_returncode = 0) →
        args.command = none → mainStatus args env = 0) := by
  have hstat : ∀ (_ : (args.backup = false ∧ args.lite = false) ∨
      env.dump_returncode = 0),
      (if args.backup || args.lite then env.dump_returncode else 0 : Int) = 0 := by
    rintro (⟨hb, hl⟩ | hr)
    · simp [hb, hl]
    · by_cases h : args.backup || args.lite <;> simp [h, hr]
  refine ⟨?_, ?_, ?_, ?_, ?_, ?_, ?_, ?_, ?_, ?_⟩
  · intro hb hr
    have hbor : (args.backup || args.lite) = true := by
      rcases hb with h | h <;> simp [h]
    simp only [mainStatus, hbor, if_true]
    simp [hr]
  · intro name hp hc
    simp only [mainStatus]
    rw [hstat hp]
    simp [hc]
  · intro name hp hc hne
    simp only [mainStatus]
    rw [hstat hp]
    simp [hc, hne]
  · intro name hp hc heq
    simp only [mainStatus]
    rw [hstat hp]
    simp [hc, heq]
  · intro hp hc
    simp only [mainStatus]
    rw [hstat hp]
    simp [hc]
  · intro fe he hp hc
    simp only [mainStatus]
    rw [hstat hp]
    simp [hc]
  · intro he hp hc
    simp only [mainStatus]
    rw [hstat hp]
    simp [hc]
  · intro he hp hc
    simp only [mainStatus]
    rw [hstat hp]
    simp [hc]
  · intro tn al hp hc
    simp only [mainStatus]
    rw [hstat hp]
    by_cases h1 : (tn.getD "") = "" <;> by_cases h2 : al = false <;>
      simp [hc, h1, h2]
  · intro hp hc
    simp only [mainStatus]
    rw [hstat hp]
    simp [hc]

/-- C8 witness: setup without `--yes` and no backup exits -1. -/
theorem main_exit_codes_witness :
    mainStatus ⟨false, false, some (.setup "xidb" false)⟩ ⟨0, "xidb", true⟩ = -1 :=
  (main_exit_codes ⟨false, false, some (.setup "xidb" false)⟩
      ⟨0, "xidb", true⟩).2.1 "xidb" (Or.inl ⟨rfl, rfl⟩) rfl

/-- C2 counterexample: with one enabled module file, the import list
computed for update contains the triggers fixture but ends with the
module file, so the triggers fixture is not ordered after every other
file in the list. -/
theorem update_list_triggers_not_last :
    ("/sql/triggers.sql" : String)
        ∈ update_import_files ["accounts"] "" none "" []
            ["a.sql", "triggers.sql"] ["m.sql"]
    ∧ (update_import_files ["accounts"] "" none "" []
          ["a.sql", "triggers.sql"] ["m.sql"]).getLast? = some "m.sql"
    ∧ ("m.sql" : String) ≠ "/sql/triggers.sql" := by
  exact ⟨by decide, by decide, by decide⟩

/-- C2 (amended): in every import list computed by `fetch_files` — and
hence in the lists built for update and for setup, which append it to
their protected-table prefix — the triggers fixture, when selected, is
ordered after every other fixture file drawn from the `sql` directory:
with no enabled module files it is the last element.  Module files, when
present, are appended after it. -/
theorem triggers_ordered_last_without_modules (db_tables : List String)
    (root : String) (db_ver : Option String) (version : String)
    (sql_diffs : List (String × Bool)) (dir_filenames : List String) :
    ((root ++ "/sql/triggers.sql")
        ∈ fetch_files root db_ver version sql_diffs dir_filenames [] →
      (fetch_files root db_ver version sql_diffs dir_filenames []).getLast?
        = some (root ++ "/sql/triggers.sql"))
    ∧ ((root ++ "/sql/triggers.sql")
        ∈ fetch_files root db_ver version sql_diffs dir_filenames [] →
      (update_import_files db_tables root db_ver version sql_diffs
          dir_filenames []).getLast? = some (root ++ "/sql/triggers.sql"))
    ∧ ((root ++ "/sql/triggers.sql")
        ∈ fetch_files root db_ver version sql_diffs dir_filenames [] →
      (create_import_files root db_ver version sql_diffs
          dir_filenames []).getLast? = some (root ++ "/sql/triggers.sql")) := by
  refine ⟨?_, ?_, ?_⟩
  · intro h
    obtain ⟨pre, hpre⟩ := fetch_files_concat_trig root db_ver version sql_diffs
      dir_filenames h
    rw [hpre]
    exact List.getLast?_concat _
  · intro h
    obtain ⟨pre, hpre⟩ := fetch_files_concat_trig root db_ver version sql_diffs
      dir_filenames h
    unfold update_import_files
    rw [hpre, ← List.append_assoc]
    exact List.getLast?_concat _
  · intro h
    obtain ⟨pre, hpre⟩ := fetch_files_concat_trig root db_ver version sql_diffs
      dir_filenames h
    unfold create_import_files
    rw [hpre, ← List.append_assoc]
    exact List.getLast?_concat _

/-- C2 witness: the update list with no modules ends with the triggers
fixture. -/
theorem triggers_ordered_last_witness :
    (update_import_files ["accounts"] "" none "" []
        ["a.sql", "triggers.sql"] []).getLast?
      = some ("" ++ "/sql/triggers.sql") :=
  (triggers_ordered_last_without_modules ["accounts"] "" none "" []
      ["a.sql", "triggers.sql"]).2.1 (by decide)

/-- C4: for a non-empty binary value, `export_table` emits the
`0x`-prefixed uppercase-hex form in the `npc_list` name column (index 1)
iff some byte lies outside the printable ASCII range 32-126; in that
column a fully printable value is emitted as the quoted Latin-1 decoded
text; in every other position a non-empty binary value is emitted as
`0x`-prefixed uppercase hex. -/
theorem binary_hex_encoding_iff (table : Str) (vars : List (Str × Str))
    (i : Nat) (bs : List Nat) (hne : bs ≠ []) :
    ((table = "npc_list".data ∧ i = 1) →
      (formatValue table vars i (.vbytes bs) = some ('0' :: 'x' :: hexUpper bs)
        ↔ ∃ b ∈ bs, b < 32 ∨ 126 < b))
    ∧ (¬(table = "npc_list".data ∧ i = 1) →
        formatValue table vars i (.vbytes bs)
          = some ('0' :: 'x' :: hexUpper bs))
    ∧ ((table = "npc_list".data ∧ i = 1) → (∀ b ∈ bs, 32 ≤ b ∧ b ≤ 126) →
        formatValue table vars i (.vbytes bs)
          = some ('\'' :: latin1Decode bs ++ ['\''])) := by
  have hie : bs.isEmpty = false := by
    cases bs with
    | nil => exact absurd rfl hne
    | cons a l => rfl
  refine ⟨?_, ?_, ?_⟩
  · intro hspec
    simp only [formatValue, hie, Bool.false_eq_true, if_false, hspec,
      and_self, if_true]
    by_cases hall : bs.all (fun j => 32 ≤ j && j ≤ 126) = true
    · simp only [hall, if_true]
      constructor
      · intro h
        injection h with h1
        injection h1 with hc
        exact absurd hc (by decide)
      · rintro ⟨b, hb, hout⟩
        simp only [List.all_eq_true, Bool.and_eq_true, decide_eq_true_eq]
          at hall
        have := hall b hb
        omega
    · rw [Bool.not_eq_true] at hall
      simp only [hall, Bool.false_eq_true, if_false]
      refine iff_of_true trivial ?_
      simp only [List.all_eq_false, Bool.and_eq_true, decide_eq_true_eq]
        at hall
      obtain ⟨b, hb, hout⟩ := hall
      exact ⟨b, hb, by omega⟩
  · intro hn
    simp [formatValue, hie, hn]
  · intro hspec hall
    have h2 : bs.all (fun j => 32 ≤ j && j ≤ 126) = true := by
      simp only [List.all_eq_true, Bool.and_eq_true, decide_eq_true_eq]
      exact fun b hb => ⟨(hall b hb).1, (hall b hb).2⟩
    simp [formatValue, hie, hspec, h2]

/-- C4 witness: the byte 10 is outside the printable range, so the
`npc_list` name column emits hex. -/
theorem binary_hex_encoding_witness :
    formatValue ("npc_list".data) [] 1 (.vbytes [10])
      = some ('0' :: 'x' :: hexUpper [10]) :=
  ((binary_hex_encoding_iff ("npc_list".data) [] 1 [10] (by decide)).1
      ⟨rfl, rfl⟩).mpr ⟨10, by decide, Or.inl (by decide)⟩

theorem digitChar_spec :
    ∀ d, d < 10 → digitVal (digitChar d) = d ∧ isDigitChar (digitChar d) = true := by
  decide

theorem digitsVal_concat (a : Str) (c : Char) :
    digitsVal (a ++ [c]) = digitsVal a * 10 + digitVal c := by
  simp [digitsVal, List.foldl_append]

theorem natToDigitsAux_spec :
    ∀ fuel n, n < fuel →
      natToDigitsAux fuel n ≠ []
      ∧ (natToDigitsAux fuel n).all isDigitChar = true
      ∧ digitsVal (natToDigitsAux fuel n) = n := by
  intro fuel
  induction fuel with
  | zero => intro n h; omega
  | succ f ih =>
    intro n h
    by_cases h10 : n < 10
    · simp only [natToDigitsAux, h10, if_true]
      refine ⟨by simp, ?_, ?_⟩
      · simp [List.all_cons, (digitChar_spec n h10).2]
      · simp [digitsVal, (digitChar_spec n h10).1]
    · simp only [natToDigitsAux, h10, if_false]
      have hn0 : 0 < n := by omega
      have hdiv : n / 10 < f := by
        have hlt : n / 10 < n := Nat.div_lt_self hn0 (by omega)
        omega
      obtain ⟨hne, hall, hval⟩ := ih (n / 10) hdiv
      have hmod : n % 10 < 10 := Nat.mod_lt n (by omega)
      refine ⟨by simp, ?_, ?_⟩
      · rw [List.all_append]
        simp [hall, (digitChar_spec (n % 10) hmod).2]
      · rw [digitsVal_concat, hval, (digitChar_spec (n % 10) hmod).1]
        omega

theorem natToDigits_spec (n : Nat) :
    natToDigits n ≠ [] ∧ (natToDigits n).all isDigitChar = true
    ∧ digitsVal (natToDigits n) = n :=
  natToDigitsAux_spec (n + 1) n (Nat.lt_succ_self n)

theorem digitsToNat?_natToDigits (n : Nat) :
    digitsToNat? (natToDigits n) = some n := by
  obtain ⟨h1, h2, h3⟩ := natToDigits_spec n
  simp [digitsToNat?, h1, h2, h3]

theorem not_ws_of_digit (c : Char) (h : isDigitChar c = true) :
    isWs c = false := by
  by_contra hw
  rw [Bool.not_eq_false] at hw
  simp only [isWs, Bool.or_eq_true, decide_eq_true_eq] at hw
  rcases hw with ((((h1 | h1) | h1) | h1) | h1) | h1 <;> subst h1 <;>
    exact absurd h (by decide)

theorem pyStrip_eq_self (s : Str) (h : ∀ c ∈ s, isWs c = false) :
    pyStrip s = s := by
  have hdt : dropTrailingWs s = s := by
    unfold dropTrailingWs
    cases hrev : s.reverse with
    | nil =>
      rw [List.reverse_eq_nil_iff.mp hrev]
      rfl
    | cons c cs =>
      have hcm : c ∈ s := by
        rw [← List.mem_reverse, hrev]
        exact List.mem_cons_self ..
      have hc : isWs c = false := h c hcm
      simp only [dropLeadingWs, hc, Bool.false_eq_true, if_false]
      rw [← hrev, List.reverse_reverse]
  rw [pyStrip, hdt]
  cases hs : s with
  | nil => rfl
  | cons c cs =>
    have hc : isWs c = false := h c (hs ▸ List.mem_cons_self ..)
    simp only [dropLeadingWs, hc, Bool.false_eq_true, if_false]

theorem pyStrip_natToDigits (n : Nat) :
    pyStrip (natToDigits n) = natToDigits n := by
  apply pyStrip_eq_self
  intro c hc
  have hall := (natToDigits_spec n).2.1
  rw [List.all_eq_true] at hall
  exact not_ws_of_digit c (hall c hc)

theorem natToDigits_head_digit (n : Nat) :
    ∃ c cs, natToDigits n = c :: cs ∧ isDigitChar c = true := by
  obtain ⟨h1, h2, _⟩ := natToDigits_spec n
  cases hs : natToDigits n with
  | nil => exact absurd hs h1
  | cons c cs =>
    refine ⟨c, cs, rfl, ?_⟩
    rw [List.all_eq_true] at h2
    exact h2 c (hs ▸ List.mem_cons_self ..)

theorem parseIntLit_natToDigits (n : Nat) :
    parseIntLit (natToDigits n) = some (↑n) := by
  obtain ⟨c, cs, hs, hc⟩ := natToDigits_head_digit n
  have hcm : ¬(c = '-') := by
    intro h
    subst h
    exact absurd hc (by decide)
  rw [hs]
  simp only [parseIntLit]
  rw [if_neg hcm, ← hs, digitsToNat?_natToDigits]
  rfl

theorem intToStr_natCast (k : Nat) : intToStr (↑k) = natToDigits k := by
  rw [intToStr, if_neg (Int.not_lt.mpr (Int.natCast_nonneg k))]
  simp

theorem pyInt_intToStr_natCast (k : Nat) :
    pyInt (intToStr (↑k)) = some (↑k) := by
  rw [intToStr_natCast, pyInt, pyStrip_natToDigits, parseIntLit_natToDigits]

theorem intLand_natCast (a b : Nat) : Int.land (↑a) (↑b) = ↑(a &&& b) := rfl

theorem intLand_two_pow_ne_zero_iff (m e : Nat) :
    (Int.land (Nat.cast m) (Nat.cast (2 ^ e)) ≠ 0) ↔ m.testBit e = true := by
  rw [intLand_natCast, Nat.and_two_pow]
  cases h : m.testBit e
  · simp [h]
  · simp only [h, Bool.toNat_true, one_mul, ne_eq, Nat.cast_eq_zero]
    simp [(Nat.two_pow_pos e).ne']

theorem petSkillExpand_pow_keys (m : Nat) (decls : List (Nat × Str)) :
    petSkillExpand (Nat.cast m)
        (decls.map (fun d => (intToStr (Nat.cast (2 ^ d.1)), d.2)))
      = some ((decls.filter (fun d => m.testBit d.1)).map (fun d => d.2)) := by
  induction decls with
  | nil => rfl
  | cons d rest ih =>
    simp only [List.map_cons, petSkillExpand, pyInt_intToStr_natCast]
    rw [ih]
    simp only [Option.map_some']
    by_cases hb : m.testBit d.1
    · rw [if_pos ((intLand_two_pow_ne_zero_iff m d.1).mpr hb)]
      simp [List.filter_cons, hb]
    · rw [if_neg (fun hcontr =>
        absurd ((intLand_two_pow_ne_zero_iff m d.1).mp hcontr) hb)]
      simp [List.filter_cons, hb]

/-- C5: for a `pet_skills` row, the bitmask column (index 9) is formatted
as the ` | `-joined names of every constant declared by a preceding
`SET @var = value` line (here: declarations with single-bit values
`2 ^ e`, written in canonical decimal as the scan collects them) whose
bit is set in the source integer, in declaration order. -/
theorem pet_skills_bitmask_expansion (decls : List (Nat × Str)) (m : Nat) :
    formatValue ("pet_skills".data)
        (decls.map (fun d => (intToStr (Nat.cast (2 ^ d.1)), d.2))) 9
        (.vint (Nat.cast m))
      = some (joinSep (" | ".data)
          ((decls.filter (fun d => m.testBit d.1)).map (fun d => d.2))) := by
  simp only [formatValue]
  rw [if_neg (fun h => absurd h.1 (by decide))]
  rw [if_pos (by exact ⟨by trivial, by trivial⟩)]
  rw [petSkillExpand_pow_keys]
  rfl

theorem hexVal_hexDigit : ∀ d, d < 16 → hexVal (hexDigit d) = some d := by
  decide

theorem hexPairs_hexUpper (bs : List Nat) (h : ∀ b ∈ bs, b < 256) :
    hexPairs (hexUpper bs) = some bs := by
  induction bs with
  | nil => rfl
  | cons b rest ih =>
    have hb := h b (List.mem_cons_self ..)
    have h1 : b / 16 % 16 < 16 := Nat.mod_lt _ (by omega)
    have h2 : b % 16 < 16 := Nat.mod_lt _ (by omega)
    simp only [hexUpper, hexPairs, hexVal_hexDigit _ h1, hexVal_hexDigit _ h2]
    rw [ih (fun x hx => h x (List.mem_cons_of_mem _ hx))]
    simp only [Option.map_some']
    have hb2 : b / 16 % 16 * 16 + b % 16 = b := by omega
    rw [hb2]

theorem parseQuotedAux_backslash (acc : Str) (d : Char) (rest : Str) :
    parseQuotedAux acc ('\\' :: d :: rest)
      = parseQuotedAux (acc ++ [unescapeChar d]) rest := rfl

theorem parseQuotedAux_quote_nil (acc : Str) :
    parseQuotedAux acc ['\''] = some acc := rfl

theorem parseQuotedAux_other (acc : Str) (c : Char) (rest : Str)
    (h1 : ¬(c = '\\')) (h2 : ¬(c = '\'')) :
    parseQuotedAux acc (c :: rest) = parseQuotedAux (acc ++ [c]) rest := by
  rw [parseQuotedAux.eq_def]
  simp only []
  rw [if_neg h1, if_neg h2]

theorem parseQuotedAux_escape (s : Str) (h : '\\' ∉ s) :
    ∀ acc, parseQuotedAux acc (escapeQuotes s ++ ['\'']) = some (acc ++ s) := by
  induction s with
  | nil =>
    intro acc
    rw [show escapeQuotes [] ++ ['\''] = ['\''] from rfl]
    rw [parseQuotedAux_quote_nil, List.append_nil]
  | cons c cs ih =>
    intro acc
    have hc : ¬(c = '\\') := fun hh => h (hh ▸ List.mem_cons_self ..)
    have hcs : '\\' ∉ cs := fun hh => h (List.mem_cons_of_mem _ hh)
    by_cases hq : c = '\''
    · subst hq
      rw [show escapeQuotes ('\'' :: cs) = '\\' :: '\'' :: escapeQuotes cs
        from by simp [escapeQuotes]]
      rw [List.cons_append, List.cons_append, parseQuotedAux_backslash]
      rw [show unescapeChar '\'' = '\'' from by decide]
      rw [ih hcs]
      simp
    · rw [show escapeQuotes (c :: cs) = c :: escapeQuotes cs
        from by simp [escapeQuotes, hq]]
      rw [List.cons_append, parseQuotedAux_other _ _ _ hc hq]
      rw [ih hcs]
      simp

theorem bindSomeEq {a : Str} (f : Str → Option Value) :
    (some a).bind f = f a := rfl

theorem cons_ne_null (c : Char) (cs : Str) (h : ¬(c = 'N')) :
    ¬(c :: cs = ['N', 'U', 'L', 'L']) := by
  intro he
  injection he with h1 _
  exact h h1

theorem intToStr_ne_null (n : Int) : ¬(intToStr n = ['N', 'U', 'L', 'L']) := by
  rw [intToStr]
  by_cases hn : n < 0
  · rw [if_pos hn]
    exact cons_ne_null _ _ (by decide)
  · rw [if_neg hn]
    obtain ⟨c, cs, hs, hc⟩ := natToDigits_head_digit n.toNat
    rw [hs]
    refine cons_ne_null _ _ (fun he => ?_)
    subst he
    exact absurd hc (by decide)

theorem parseIntLit_intToStr (n : Int) : parseIntLit (intToStr n) = some n := by
  by_cases hn : n < 0
  · rw [intToStr, if_pos hn]
    simp only [parseIntLit, if_true]
    rw [digitsToNat?_natToDigits]
    simp only [Option.map_some', Option.some.injEq, Int.ofNat_eq_natCast]
    omega
  · rw [intToStr, if_neg hn]
    rw [parseIntLit_natToDigits]
    congr 1
    omega

/-- C1 (amended): formatting a fetched value with `export_table` and
parsing the emitted literal back (as the external `mysql` import does)
is the identity for NULL, binary, integer, and backslash-free string
values, in any column other than the three variable-substituted ones
(`mob_droplist` column 5, `pet_skills` column 9, `npc_list` column 1). -/
theorem export_format_parse_roundtrip (table : Str) (vars : List (Str × Str))
    (i : Nat) (v : Value)
    (hmob : ¬(table = "mob_droplist".data ∧ i = 5))
    (hpet : ¬(table = "pet_skills".data ∧ i = 9))
    (hnpc : ¬(table = "npc_list".data ∧ i = 1))
    (hstr : ∀ s, v = .vstr s → '\\' ∉ s)
    (hbytes : ∀ bs, v = .vbytes bs → ∀ b ∈ bs, b < 256) :
    (formatValue table vars i v).bind (parseValue (kindOf v)) = some v := by
  cases v with
  | vnull =>
    simp [formatValue, parseValue, kindOf]
  | vbytes bs =>
    cases bs with
    | nil =>
      simp only [formatValue, List.isEmpty_nil, if_true, Option.bind_some]
      decide
    | cons b rest =>
      have hne : (b :: rest).isEmpty = false := rfl
      simp only [formatValue, hne, Bool.false_eq_true, if_false,
        if_neg hnpc, kindOf]
      simp only [parseValue]
      rw [bindSomeEq]
      rw [if_neg (cons_ne_null _ _ (by decide))]
      have hsw : sStartsWith ['0', 'x'] ('0' :: 'x' :: hexUpper (b :: rest))
          = true := by
        simp [sStartsWith]
      simp only [hsw, if_true]
      have hdrop : ('0' :: 'x' :: hexUpper (b :: rest)).drop 2
          = hexUpper (b :: rest) := rfl
      rw [hdrop, hexPairs_hexUpper _ (hbytes _ rfl)]
      rfl
  | vstr s =>
    have hs := hstr s rfl
    simp only [formatValue, kindOf]
    simp only [parseValue]
    rw [bindSomeEq, List.cons_append]
    rw [if_neg (cons_ne_null _ _ (by decide))]
    rw [parseQuoted, parseQuotedAux_escape s hs []]
    rfl
  | vint n =>
    have hmob2 : ¬(table = "mob_droplist".data ∧ i = 5 ∧
        (assocLookup vars (intToStr n)).isSome = true) :=
      fun h => hmob ⟨h.1, h.2.1⟩
    have hpet2 : ¬(table = "pet_skills".data ∧ i = 9) := hpet
    simp only [formatValue, if_neg hmob2, if_neg hpet2, kindOf]
    simp only [parseValue]
    rw [bindSomeEq]
    rw [if_neg (intToStr_ne_null n)]
    rw [parseIntLit_intToStr]
    rfl

/-- C1 counterexample: a string value containing a backslash round-trips
to a parse failure, not to itself: the formatter escapes only quotes, so
the emitted literal ends in an escaped quote and never closes. -/
theorem export_format_parse_counterexample :
    (formatValue ("t".data) [] 0 (.vstr ['a', '\\'])).bind
        (parseValue (kindOf (.vstr ['a', '\\']))) = none
    ∧ (none : Option Value) ≠ some (.vstr ['a', '\\']) := by
  exact ⟨by decide, by decide⟩

/-- C1 witness: a two-byte binary value round-trips. -/
theorem export_format_parse_witness :
    (formatValue ("t".data) [] 0 (.vbytes [0, 255])).bind
        (parseValue (kindOf (.vbytes [0, 255]))) = some (.vbytes [0, 255]) :=
  export_format_parse_roundtrip ("t".data) [] 0 (.vbytes [0, 255])
    (fun h => absurd h.1 (by decide)) (fun h => absurd h.1 (by decide))
    (fun h => absurd h.1 (by decide))
    (fun _ h => Value.noConfusion h)
    (fun bs h => by injection h with h1; subst h1; decide)

theorem processLine_rowIndex (table : Str) (rows : List (List Value))
    (vars : List (Str × Str)) (idx : Nat) (l : Str)
    (out : Str × List (Str × Str) × Nat)
    (h : processLine table rows vars idx l = some out) :
    (isInsertMatch table l = true → idx < rows.length ∧ out.2.2 = idx + 1)
    ∧ (isInsertMatch table l = false → out.2.2 = idx) := by
  unfold processLine at h
  split at h
  · exact absurd h (by simp)
  next vars2 hscan =>
    split at h
    next hm =>
      split at h
      · exact absurd h (by simp)
      next row hrow =>
        have hlt : idx < rows.length := by
          by_contra hge
          rw [List.get?_eq_none.mpr (by omega)] at hrow
          exact Option.noConfusion hrow
        split at h
        · exact absurd h (by simp)
        next vals hfmt =>
          split at h
          · split at h
            · exact absurd h (by simp)
            next p hio =>
              injection h with h1
              subst h1
              exact ⟨fun _ => ⟨hlt, rfl⟩,
                fun hf => by rw [hm] at hf; exact Bool.noConfusion hf⟩
          · injection h with h1
            subst h1
            exact ⟨fun _ => ⟨hlt, rfl⟩,
              fun hf => by rw [hm] at hf; exact Bool.noConfusion hf⟩
    next hm =>
      injection h with h1
      subst h1
      refine ⟨fun ht => ?_, fun _ => rfl⟩
      rw [Bool.not_eq_true] at hm
      rw [hm] at ht
      exact Bool.noConfusion ht

theorem processLinesAux_matches_le (table : Str) (rows : List (List Value)) :
    ∀ (ls : List Str) (vars : List (Str × Str)) (idx : Nat) (acc : List Str)
      (r : List Str),
      processLinesAux table rows vars idx acc ls = some r →
      (ls.filter (fun l => isInsertMatch table l)).length = 0
      ∨ idx + (ls.filter (fun l => isInsertMatch table l)).length
          ≤ rows.length := by
  intro ls
  induction ls with
  | nil => intro vars idx acc r _; exact Or.inl rfl
  | cons l ls ih =>
    intro vars idx acc r h
    unfold processLinesAux at h
    cases hpl : processLine table rows vars idx l with
    | none => rw [hpl] at h; exact absurd h (by simp)
    | some out =>
      obtain ⟨o, vars2, idx2⟩ := out
      rw [hpl] at h
      obtain ⟨hmt, hmf⟩ := processLine_rowIndex table rows vars idx l
        (o, vars2, idx2) hpl
      have hrec := ih vars2 idx2 (o :: acc) r h
      by_cases hm : isInsertMatch table l
      · obtain ⟨hlt, hidx⟩ := hmt hm
        simp only at hidx
        rw [List.filter_cons_of_pos (by simp [hm])]
        right
        rcases hrec with h0 | hb
        · rw [List.length_cons, h0]
          omega
        · rw [hidx] at hb
          rw [List.length_cons]
          omega
      · have hidx := hmf (by simp [hm])
        simp only at hidx
        rw [List.filter_cons_of_neg (by simp [hm])]
        rw [hidx] at hrec
        exact hrec

/-- C10: the fixture file on disk is left byte-for-byte unchanged whenever
an exception interrupts the processing phase of `export_table` (`none` in
the model; the `except` clause swallows it), because the file is only
written after every line has been processed; in particular this happens
whenever the file has more matching INSERT lines than the table has rows
(`rows[row_index]` out of range). -/
theorem export_table_error_keeps_file :
    (∀ (table : Str) (rows : List (List Value)) (content : List Str),
      processLines table rows content = none →
      export_table table rows content = content)
    ∧ (∀ (table : Str) (rows : List (List Value)) (content : List Str),
      rows.length < countMatches table content →
      export_table table rows content = content) := by
  have hfail : ∀ (table : Str) (rows : List (List Value))
      (content : List Str), processLines table rows content = none →
      export_table table rows content = content := by
    intro t r c h
    unfold export_table
    rw [h]
  refine ⟨hfail, ?_⟩
  intro t r c hcount
  apply hfail
  cases hp : processLines t r c with
  | none => rfl
  | some res =>
    exfalso
    have hle := processLinesAux_matches_le t r c [] 0 [] res hp
    unfold countMatches at hcount
    rcases hle with h0 | hb
    · omega
    · omega

/-- C10 witness: one matching INSERT line and an empty row set: the row
fetch would raise `IndexError`, and the file content is returned
unchanged. -/
theorem export_table_error_keeps_file_witness :
    export_table ("t".data) [] ["INSERT INTO `t` VALUES (1);\n".data]
      = ["INSERT INTO `t` VALUES (1);\n".data] :=
  export_table_error_keeps_file.2 ("t".data) []
    ["INSERT INTO `t` VALUES (1);\n".data] (by decide)

theorem sStartsWith_append (p t : Str) : sStartsWith p (p ++ t) = true := by
  induction p with
  | nil => rfl
  | cons c cs ih => simp [sStartsWith, ih]

theorem dropLeadingWs_append_nonws (x : Char) (hx : isWs x = false) :
    ∀ (m r : Str), dropLeadingWs (m ++ x :: r) = dropLeadingWs m ++ x :: r := by
  intro m
  induction m with
  | nil => intro r; simp [dropLeadingWs, hx]
  | cons c cs ih =>
    intro r
    by_cases hc : isWs c
    · simp only [List.cons_append, dropLeadingWs, hc, if_true]
      exact ih r
    · simp only [List.cons_append, dropLeadingWs, hc, Bool.false_eq_true,
        if_false]
      rfl

theorem dropTrailingWs_append_nonws (x : Char) (hx : isWs x = false)
    (a b : Str) : dropTrailingWs (a ++ x :: b) = a ++ x :: dropTrailingWs b := by
  unfold dropTrailingWs
  rw [show (a ++ x :: b).reverse = b.reverse ++ x :: a.reverse from by
    simp [List.reverse_append]]
  rw [dropLeadingWs_append_nonws x hx]
  simp [List.reverse_append]

theorem dropLeadingWs_cons_nonws (c : Char) (hc : isWs c = false) (r : Str) :
    dropLeadingWs (c :: r) = c :: r := by
  simp [dropLeadingWs, hc]

theorem lowerChar_of_ws (c : Char) (h : isWs c = true) : lowerChar c = c := by
  simp only [isWs, Bool.or_eq_true, decide_eq_true_eq] at h
  rcases h with ((((h | h) | h) | h) | h) | h <;> subst h <;> decide

theorem beforeDashDash_reconstruct : ∀ (t : Str),
    beforeDashDash t ++ t.drop (beforeDashDash t).length = t := by
  intro t
  induction t with
  | nil => rfl
  | cons c r ih =>
    by_cases h : c = '-' ∧ r.head? = some '-'
    · rw [show beforeDashDash (c :: r) = [] from by simp [beforeDashDash, h]]
      rfl
    · rw [show beforeDashDash (c :: r) = c :: beforeDashDash r from by
        simp [beforeDashDash, h]]
      simp only [List.cons_append, List.length_cons, List.drop_succ_cons]
      rw [ih]

theorem indexOfSub_close (t : Str) :
    ∀ (a : Str), containsSub [')', ';'] a = false →
      indexOfSub [')', ';'] (a ++ ')' :: ';' :: t) = some a.length := by
  intro a
  induction a with
  | nil =>
    intro _
    rw [List.nil_append]
    rw [show indexOfSub [')', ';'] (')' :: ';' :: t)
        = if sStartsWith [')', ';'] (')' :: ';' :: t) then some 0
          else (indexOfSub [')', ';'] (';' :: t)).map (· + 1) from rfl]
    rw [if_pos (by simp [sStartsWith])]
    rfl
  | cons c cs ih =>
    intro hna
    have hna2 : containsSub [')', ';'] cs = false := by
      rw [show containsSub [')', ';'] (c :: cs)
          = (sStartsWith [')', ';'] (c :: cs) || containsSub [')', ';'] cs)
        from rfl] at hna
      exact (Bool.or_eq_false_iff.mp hna).2
    rw [List.cons_append]
    rw [show indexOfSub [')', ';'] (c :: (cs ++ ')' :: ';' :: t))
        = if sStartsWith [')', ';'] (c :: (cs ++ ')' :: ';' :: t)) then some 0
          else (indexOfSub [')', ';'] (cs ++ ')' :: ';' :: t)).map (· + 1)
      from rfl]
    have hnotsw : sStartsWith [')', ';'] (c :: (cs ++ ')' :: ';' :: t))
        = false := by
      by_contra hsw
      rw [Bool.not_eq_false] at hsw
      simp only [sStartsWith, Bool.and_eq_true, decide_eq_true_eq] at hsw
      obtain ⟨hc, hrest⟩ := hsw
      cases cs with
      | nil => simp [sStartsWith] at hrest
      | cons d ds =>
        simp only [List.cons_append, sStartsWith, Bool.and_eq_true,
          decide_eq_true_eq] at hrest
        obtain ⟨hd, _⟩ := hrest
        rw [show containsSub [')', ';'] (c :: d :: ds)
            = (sStartsWith [')', ';'] (c :: d :: ds)
               || containsSub [')', ';'] (d :: ds)) from rfl] at hna
        rw [← hc, ← hd] at hna
        simp [sStartsWith] at hna
    rw [hnotsw]
    simp only [Bool.false_eq_true, if_false]
    rw [ih hna2]
    rfl

/-- C7 (amended): `export_table` writes every line that does not match the
INSERT regex back byte-for-byte unchanged (and does not consume a row for
it).  For a matching line of the well-behaved shape
`pre ++ old ++ ");" ++ tail` — where `pre` is the INSERT head with no
leading whitespace (its lowering is exactly the matched pattern), the
text before the closing `");"` does not itself contain `");"`, and the
line either contains `--` somewhere or ends exactly in `");\n"` — only
the parenthesized literal list is replaced by the freshly formatted row
values, preserving the head's original case, the trailing comment and
the line ending.  (A matching line with leading whitespace is mangled:
see the counterexample.) -/
theorem export_line_replacement (table pre old tail : Str)
    (rows : List (List Value)) (vars : List (Str × Str)) (idx : Nat) :
    (∀ (line : Str) (out : Str × List (Str × Str) × Nat),
      isInsertMatch table line = false →
      processLine table rows vars idx line = some out →
      out.1 = line ∧ out.2.2 = idx)
    ∧ (∀ (row : List Value) (vals : List Str),
      lowerStr pre = insertPat table →
      containsSub [')', ';'] (pre ++ old) = false →
      (containsSub ['-', '-'] (pre ++ old ++ ')' :: ';' :: tail) = true
        ∨ tail = ['\n']) →
      rows.get? idx = some row →
      formatRow table vars row = some vals →
      processLine table rows vars idx (pre ++ old ++ ')' :: ';' :: tail)
        = some (pre ++ joinSep [','] vals ++ ')' :: ';' :: tail, vars,
            idx + 1)) := by
  constructor
  · intro line out hm h
    unfold processLine at h
    split at h
    · exact absurd h (by simp)
    next vars2 hscan2 =>
      rw [hm] at h
      simp only [Bool.false_eq_true, if_false] at h
      injection h with h1
      rw [← h1]
      exact ⟨rfl, rfl⟩
  · intro row vals h2 hno h5 hrow hfmt
    obtain ⟨p0, pre', hpre⟩ : ∃ p0 pre', pre = p0 :: pre' := by
      cases pre with
      | nil =>
        exfalso
        rw [show lowerStr [] = [] from rfl] at h2
        rw [show insertPat table
            = 'i' :: ("nsert into `".data ++ table ++ "` values (".data)
          from rfl] at h2
        exact List.noConfusion h2
      | cons a l => exact ⟨a, l, rfl⟩
    subst hpre
    have hlow0 : lowerChar p0 = 'i' := by
      rw [show lowerStr (p0 :: pre') = lowerChar p0 :: lowerStr pre'
        from rfl] at h2
      rw [show insertPat table
          = 'i' :: ("nsert into `".data ++ table ++ "` values (".data)
        from rfl] at h2
      exact (List.cons.injEq ..).mp h2 |>.1
    have hp0ws : isWs p0 = false := by
      by_contra hw
      rw [Bool.not_eq_false] at hw
      have hfix := lowerChar_of_ws p0 hw
      have hp0 : p0 = 'i' := hfix.symm.trans hlow0
      subst hp0
      exact absurd hw (by decide)
    have hstrip : pyStrip ((p0 :: pre') ++ old ++ ')' :: ';' :: tail)
        = (p0 :: pre') ++ old ++ ')' :: ';' :: dropTrailingWs tail := by
      unfold pyStrip
      rw [show (p0 :: pre') ++ old ++ ')' :: ';' :: tail
          = (((p0 :: pre') ++ old) ++ [')']) ++ ';' :: tail from by simp]
      rw [dropTrailingWs_append_nonws ';' (by decide)]
      rw [show (((p0 :: pre') ++ old) ++ [')']) ++ ';' :: dropTrailingWs tail
          = p0 :: (pre' ++ old ++ ')' :: ';' :: dropTrailingWs tail)
        from by simp]
      rw [dropLeadingWs_cons_nonws p0 hp0ws]
      simp
    have hmatch : isInsertMatch table
        ((p0 :: pre') ++ old ++ ')' :: ';' :: tail) = true := by
      unfold isInsertMatch
      rw [hstrip]
      rw [show (p0 :: pre') ++ old ++ ')' :: ';' :: dropTrailingWs tail
          = (p0 :: pre') ++ (old ++ ')' :: ';' :: dropTrailingWs tail)
        from by simp]
      rw [show lowerStr ((p0 :: pre') ++ (old ++ ')' :: ';' :: dropTrailingWs tail))
          = lowerStr (p0 :: pre') ++ lowerStr (old ++ ')' :: ';' :: dropTrailingWs tail)
        from List.map_append ..]
      rw [h2]
      exact sStartsWith_append ..
    have hscan : scanSet vars ((p0 :: pre') ++ old ++ ')' :: ';' :: tail)
        = some vars := by
      have hS : sStartsWith ("SET @".data)
          (pyStrip ((p0 :: pre') ++ old ++ ')' :: ';' :: tail)) = false := by
        rw [hstrip]
        rw [show (p0 :: pre') ++ old ++ ')' :: ';' :: dropTrailingWs tail
            = p0 :: (pre' ++ old ++ ')' :: ';' :: dropTrailingWs tail)
          from by simp]
        by_contra hsw
        rw [Bool.not_eq_false] at hsw
        rw [show ("SET @".data) = 'S' :: "ET @".data from rfl] at hsw
        simp only [sStartsWith, Bool.and_eq_true, decide_eq_true_eq] at hsw
        obtain ⟨hSp, _⟩ := hsw
        rw [← hSp] at hlow0
        exact absurd hlow0 (by decide)
      simp only [scanSet, hS, Bool.false_eq_true, if_false]
    have hlen : (insertPat table).length = (p0 :: pre').length := by
      rw [← h2]
      simp [lowerStr]
    have htake : ((p0 :: pre') ++ old ++ ')' :: ';' :: tail).take
        (insertPat table).length = p0 :: pre' := by
      rw [hlen]
      rw [show (p0 :: pre') ++ old ++ ')' :: ';' :: tail
          = (p0 :: pre') ++ (old ++ ')' :: ';' :: tail) from by simp]
      exact List.take_left ..
    have hdrop2 : ((p0 :: pre') ++ old ++ ')' :: ';' :: tail).drop
        (((p0 :: pre') ++ old).length + 2) = tail := by
      rw [show (p0 :: pre') ++ old ++ ')' :: ';' :: tail
          = (((p0 :: pre') ++ old) ++ [')', ';']) ++ tail from by simp]
      rw [show ((p0 :: pre') ++ old).length + 2
          = (((p0 :: pre') ++ old) ++ [')', ';']).length from by
        simp
        omega]
      exact List.drop_left ..
    simp only [processLine, hscan, hmatch, if_true, hrow, hfmt, htake]
    by_cases hcc : containsSub ("--".data)
        ((p0 :: pre') ++ old ++ ')' :: ';' :: tail) = true
    · rw [if_pos hcc]
      rw [indexOfSub_close tail ((p0 :: pre') ++ old) hno]
      simp only []
      rw [hdrop2]
      rw [← List.drop_drop]
      rw [hdrop2]
      simp only [List.append_assoc, List.cons_append, List.nil_append]
      rw [beforeDashDash_reconstruct tail]
    · have htail : tail = ['\n'] := by
        rcases h5 with h | h
        · rw [show ("--".data) = ['-', '-'] from rfl] at hcc
          exact absurd h hcc
        · exact h
      subst htail
      rw [if_neg hcc]
      simp [List.append_assoc]

/-- C7 counterexample: a matching line with one leading space.  The match
length is computed on the stripped line but the slice is taken from the
original line, so the kept prefix loses its last character (the opening
parenthesis): the claim's output would be ` INSERT INTO `t` VALUES (2);`
but the code emits ` INSERT INTO `t` VALUES 2);`. -/
theorem export_line_replacement_counterexample :
    processLine ("t".data) [[.vint 2]] [] 0
        (" INSERT INTO `t` VALUES (1);\n".data)
      = some ((" INSERT INTO `t` VALUES 2);\n".data), [], 1)
    ∧ (" INSERT INTO `t` VALUES 2);\n".data)
        ≠ (" INSERT INTO `t` VALUES (2);\n".data) := by
  exact ⟨by decide, by decide⟩

/-- C7 witness: a well-formed INSERT line with no leading whitespace gets
exactly its literal list replaced. -/
theorem export_line_replacement_witness :
    processLine ("t".data) [[.vint 2]] [] 0
        ("INSERT INTO `t` VALUES (".data ++ "1".data ++ ')' :: ';' :: ['\n'])
      = some ("INSERT INTO `t` VALUES (".data ++ joinSep [','] [['2']]
          ++ ')' :: ';' :: ['\n'], [], 1) :=
  (export_line_replacement ("t".data) ("INSERT INTO `t` VALUES (".data)
      ("1".data) ['\n'] [[.vint 2]] [] 0).2 [.vint 2] [['2']]
    (by decide) (by decide) (Or.inr rfl) (by decide) (by decide)

theorem lastValAux_oElse (k : Str) :
    ∀ (ws : List (Str × Str)) (a : Option Str),
      ws.foldl (fun acc w => if w.1 = k then some w.2 else acc) a
        = oElse (lastVal ws k) a := by
  intro ws
  induction ws with
  | nil => intro a; cases a <;> rfl
  | cons w ws ih =>
    intro a
    rw [List.foldl_cons]
    rw [ih]
    rw [show lastVal (w :: ws) k
        = oElse (lastVal ws k) (if w.1 = k then some w.2 else none) from by
      rw [lastVal, List.foldl_cons]
      exact ih _]
    by_cases hw : w.1 = k
    · rw [if_pos hw, if_pos hw]
      cases lastVal ws k <;> rfl
    · rw [if_neg hw, if_neg hw]
      cases lastVal ws k <;> rfl

theorem lastVal_append (A B : List (Str × Str)) (k : Str) :
    lastVal (A ++ B) k = oElse (lastVal B k) (lastVal A k) := by
  rw [lastVal, List.foldl_append]
  exact lastValAux_oElse k B (lastVal A k)

theorem applyLines_lookup (k : Str) :
    ∀ (lines : List Str) (cur : SettingsInner),
      (lines.foldl applyLine cur) k
        = oElse (lastVal (lines.filterMap parseLine) k) (cur k) := by
  intro lines
  induction lines with
  | nil => intro cur; rfl
  | cons l ls ih =>
    intro cur
    rw [List.foldl_cons, ih]
    cases hp : parseLine l with
    | none =>
      rw [List.filterMap_cons_none hp]
      rw [show applyLine cur l = cur from by unfold applyLine; rw [hp]]
    | some kv =>
      obtain ⟨kk, vv⟩ := kv
      rw [List.filterMap_cons_some hp]
      rw [show lastVal ((kk, vv) :: ls.filterMap parseLine) k
          = oElse (lastVal (ls.filterMap parseLine) k)
              (if kk = k then some vv else none) from by
        rw [lastVal, List.foldl_cons]
        exact lastValAux_oElse k _ _]
      rw [show applyLine cur l
          = fun q => if q = kk then some vv else cur q from by
        unfold applyLine
        rw [hp]]
      by_cases hk : kk = k
      · rw [if_pos hk]
        simp only []
        rw [if_pos hk.symm]
        cases lastVal (ls.filterMap parseLine) k <;> rfl
      · rw [if_neg hk]
        simp only []
        rw [if_neg (fun h => hk h.symm)]
        cases lastVal (ls.filterMap parseLine) k <;> rfl

theorem dirWrites_cons (f : SFile) (fs : List SFile) (fk : Str) :
    dirWrites (f :: fs) fk
      = if f.key = fk then fileWrites f ++ dirWrites fs fk
        else dirWrites fs fk := by
  by_cases hk : f.key = fk
  · rw [if_pos hk]
    unfold dirWrites
    rw [List.filter_cons_of_pos (by simp [hk])]
    rw [List.map_cons, List.flatten_cons]
  · rw [if_neg hk]
    unfold dirWrites
    rw [List.filter_cons_of_neg (by simp [hk])]

theorem touchedF_cons (f : SFile) (fs : List SFile) (fk : Str) :
    touchedF (f :: fs) fk
      = ((f.key = fk && !f.lines.isEmpty) || touchedF fs fk) := by
  rw [touchedF, List.any_cons]
  rfl

theorem applyFile_nil_lines (s : SettingsMap) (f : SFile) (h : f.lines = []) :
    applyFile s f = s := by
  unfold applyFile
  rw [h]

theorem applyFile_cons_lines (s : SettingsMap) (f : SFile) (l0 : Str)
    (ls0 : List Str) (h : f.lines = l0 :: ls0) :
    applyFile s f = fun fk =>
      if fk = f.key then
        some ((l0 :: ls0).foldl applyLine ((s f.key).getD emptyInner))
      else s fk := by
  unfold applyFile
  rw [h]

theorem dirWrites_nil_of_untouched (fk : Str) :
    ∀ (fs : List SFile), touchedF fs fk = false → dirWrites fs fk = [] := by
  intro fs
  induction fs with
  | nil => intro _; rfl
  | cons f fs ih =>
    intro h
    rw [touchedF_cons, Bool.or_eq_false_iff] at h
    obtain ⟨h1, h2⟩ := h
    rw [dirWrites_cons]
    by_cases hk : f.key = fk
    · rw [if_pos hk]
      simp only [hk, decide_true_eq_true, Bool.true_and, Bool.not_eq_false']
        at h1
      have hfw : fileWrites f = [] := by
        unfold fileWrites
        rw [List.isEmpty_iff.mp h1]
        rfl
      rw [hfw, List.nil_append, ih h2]
    · rw [if_neg hk, ih h2]

theorem applyFiles_char (fk : Str) :
    ∀ (files : List SFile) (s : SettingsMap),
      (files.foldl applyFile s) fk
        = if touchedF files fk = true
          then some (fun k =>
            oElse (lastVal (dirWrites files fk) k) (lookup2 s fk k))
          else s fk := by
  intro files
  induction files with
  | nil =>
    intro s
    rw [show touchedF [] fk = false from rfl]
    simp
  | cons f fs ih =>
    intro s
    rw [List.foldl_cons, ih (applyFile s f)]
    cases hl : f.lines with
    | nil =>
      rw [applyFile_nil_lines s f hl]
      have hfw : fileWrites f = [] := by
        unfold fileWrites
        rw [hl]
        rfl
      have ht : touchedF (f :: fs) fk = touchedF fs fk := by
        rw [touchedF_cons, hl]
        simp
      rw [ht, dirWrites_cons]
      by_cases hk : f.key = fk
      · rw [if_pos hk, hfw, List.nil_append]
      · rw [if_neg hk]
    | cons l0 ls0 =>
      by_cases hk : f.key = fk
      · have ht : touchedF (f :: fs) fk = true := by
          rw [touchedF_cons, hl]
          simp [hk]
        have hbase : ∀ k, ((s f.key).getD emptyInner) k = lookup2 s fk k := by
          intro k
          rw [hk]
          unfold lookup2
          cases s fk <;> rfl
        have hlook : ∀ k, lookup2 (applyFile s f) fk k
            = oElse (lastVal (fileWrites f) k) (lookup2 s fk k) := by
          intro k
          unfold lookup2
          rw [applyFile_cons_lines s f l0 ls0 hl]
          simp only []
          rw [if_pos hk.symm]
          show ((l0 :: ls0).foldl applyLine ((s f.key).getD emptyInner)) k = _
          rw [show (l0 :: ls0) = f.lines from hl.symm, applyLines_lookup]
          rw [hbase k]
          rfl
        have happfk : (applyFile s f) fk
            = some (fun k =>
                oElse (lastVal (fileWrites f) k) (lookup2 s fk k)) := by
          rw [applyFile_cons_lines s f l0 ls0 hl]
          simp only []
          rw [if_pos hk.symm]
          congr 1
          funext k
          rw [show (l0 :: ls0) = f.lines from hl.symm, applyLines_lookup]
          rw [hbase k]
          rfl
        rw [ht, dirWrites_cons, if_pos hk]
        simp only [if_true]
        by_cases hts : touchedF fs fk = true
        · rw [hts]
          simp only [if_true]
          congr 1
          funext k
          rw [hlook k, lastVal_append]
          exact (oElse_assoc ..).symm
        · rw [if_neg hts, happfk]
          congr 1
          funext k
          rw [dirWrites_nil_of_untouched fk fs
            (by rw [Bool.not_eq_true] at hts; exact hts)]
          rw [List.append_nil]
      · have happfk : (applyFile s f) fk = s fk := by
          rw [applyFile_cons_lines s f l0 ls0 hl]
          simp only []
          rw [if_neg (fun h => hk h.symm)]
        have hlook : ∀ k, lookup2 (applyFile s f) fk k = lookup2 s fk k := by
          intro k
          unfold lookup2
          rw [happfk]
        have ht : touchedF (f :: fs) fk = touchedF fs fk := by
          rw [touchedF_cons]
          simp [hk]
        rw [ht, dirWrites_cons, if_neg hk, happfk]
        by_cases hts : touchedF fs fk = true
        · rw [hts]
          simp only [if_true]
          congr 1
          funext k
          rw [hlook k]
        · rw [if_neg hts, if_neg hts]

theorem populate_settings_eq_foldl (dirs : List (List SFile)) :
    ∀ (s : SettingsMap),
      populate_settings s dirs = (dirs.flatten).foldl applyFile s := by
  induction dirs with
  | nil => intro s; rfl
  | cons d ds ih =>
    intro s
    rw [populate_settings, List.foldl_cons, List.flatten_cons,
      List.foldl_append]
    exact ih _

theorem dirWrites_append (A B : List SFile) (fk : Str) :
    dirWrites (A ++ B) fk = dirWrites A fk ++ dirWrites B fk := by
  unfold dirWrites
  rw [List.filter_append, List.map_append, List.flatten_append]

theorem touchedF_append (A B : List SFile) (fk : Str) :
    touchedF (A ++ B) fk = (touchedF A fk || touchedF B fk) := by
  unfold touchedF
  rw [List.any_append]

theorem touchedF_of_dirWrites_ne_nil (fk : Str) :
    ∀ (fs : List SFile), dirWrites fs fk ≠ [] → touchedF fs fk = true := by
  intro fs
  induction fs with
  | nil => intro h; exact absurd rfl h
  | cons f fs ih =>
    intro h
    rw [dirWrites_cons] at h
    rw [touchedF_cons]
    by_cases hk : f.key = fk
    · rw [if_pos hk] at h
      by_cases hw : fileWrites f = []
      · rw [hw, List.nil_append] at h
        rw [ih h]
        simp
      · have hlines : ¬(f.lines.isEmpty = true) := by
          intro he
          apply hw
          unfold fileWrites
          rw [List.isEmpty_iff.mp he]
          rfl
        simp [hk, hlines]
    · rw [if_neg hk] at h
      rw [ih h]
      simp

/-- C6: loading settings is idempotent — running `populate_settings` a
second time over the same directories leaves the settings mapping
unchanged — and for every key written by the overrides directory (the
second directory processed), the retained value is the last value the
overrides directory writes to it, regardless of the defaults directory:
last write wins. -/
theorem populate_settings_idempotent_overrides_win :
    (∀ (s : SettingsMap) (dirs : List (List SFile)),
      populate_settings (populate_settings s dirs) dirs
        = populate_settings s dirs)
    ∧ (∀ (s : SettingsMap) (defaults overrides : List SFile) (fk k v : Str),
      lastVal (dirWrites overrides fk) k = some v →
      lookup2 (populate_settings s [defaults, overrides]) fk k = some v) := by
  constructor
  · intro s dirs
    funext fk
    rw [populate_settings_eq_foldl, populate_settings_eq_foldl]
    rw [applyFiles_char fk dirs.flatten ((dirs.flatten).foldl applyFile s),
      applyFiles_char fk dirs.flatten s]
    by_cases ht : touchedF dirs.flatten fk = true
    · rw [ht]
      simp only [if_true]
      congr 1
      funext k
      have hl : lookup2 ((dirs.flatten).foldl applyFile s) fk k
          = oElse (lastVal (dirWrites dirs.flatten fk) k)
              (lookup2 s fk k) := by
        unfold lookup2
        rw [applyFiles_char fk dirs.flatten s, ht]
        simp only [if_true]
        rfl
      rw [hl]
      exact oElse_self_absorb ..
    · rw [if_neg ht, if_neg ht]
  · intro s defaults overrides fk k v hov
    rw [populate_settings_eq_foldl]
    rw [show ([defaults, overrides] : List (List SFile)).flatten
        = defaults ++ overrides from by simp]
    have hne : dirWrites overrides fk ≠ [] := by
      intro he
      rw [he] at hov
      exact Option.noConfusion hov
    have htouch : touchedF (defaults ++ overrides) fk = true := by
      rw [touchedF_append, touchedF_of_dirWrites_ne_nil fk overrides hne]
      simp
    unfold lookup2
    rw [applyFiles_char fk (defaults ++ overrides) s, htouch]
    simp only [if_true]
    show oElse (lastVal (dirWrites (defaults ++ overrides) fk) k)
        (lookup2 s fk k) = some v
    rw [dirWrites_append, lastVal_append, hov]
    rfl

/-- C6 witness: one defaults file and one overrides file both set key `A`
of the `map` settings file; the override's value is retained. -/
theorem populate_settings_overrides_witness :
    lookup2 (populate_settings (fun _ => none)
        [[⟨"map".data, ["A = \"x\" -- c".data]⟩],
         [⟨"map".data, ["A = \"y\"".data]⟩]])
      ("map".data) ("A".data) = some ("y".data) :=
  populate_settings_idempotent_overrides_win.2 (fun _ => none)
    [⟨"map".data, ["A = \"x\" -- c".data]⟩]
    [⟨"map".data, ["A = \"y\"".data]⟩]
    ("map".data) ("A".data) ("y".data) (by decide)
